import Mathlib

/-!
Verification of the orchestration core of the AGENTTA repository
(`src/core/mcp.py`, `src/core/shared_context.py`, `src/core/event_bus.py`)
against its natural-language specification.

The Python code is shallowly embedded: Python dicts become
insertion-ordered association lists with unique keys (`dictInsert`
replaces in place, like Python assignment), JSON-serializable Python
values become the inductive `PyVal` (numbers are modelled as integers;
floats are immaterial to every property proved here), raising code
returns `Except`, and the asynchronous fan-out of
`MasterControlProgram.process_event` (an `asyncio.gather` with
`return_exceptions=True`, joined before any further step) becomes a map
over worker invocations producing per-worker `Except` results.
Wall-clock timestamp strings (`datetime.now().isoformat()`) carry no
information any property depends on and are omitted from log-entry
records.
-/

/-- A JSON-serializable Python value as handled by `json.dumps` /
`json.loads` in `shared_context.py`.  Numbers are modelled as integers
(the model's choice for the value universe); objects keep insertion
order like Python dicts. -/
inductive PyVal where
  | null : PyVal
  | bool : Bool → PyVal
  | int : Int → PyVal
  | str : String → PyVal
  | list : List PyVal → PyVal
  | dict : List (String × PyVal) → PyVal

/-- Python `isinstance(x, dict)`. -/
def PyVal.isDict : PyVal → Bool
  | .dict _ => true
  | _ => false

/-- First-occurrence lookup in an insertion-ordered dict. -/
def dictGet [DecidableEq κ] (d : List (κ × α)) (k : κ) : Option α :=
  match d with
  | [] => none
  | (k0, v0) :: rest => if k0 = k then some v0 else dictGet rest k

/-- Python `d.get(k, default)`. -/
def dictGetD [DecidableEq κ] (d : List (κ × α)) (k : κ) (dflt : α) : α :=
  (dictGet d k).getD dflt

/-- Python dict assignment `d[k] = v`: replace the value in place if the
key is present, otherwise append the new pair. -/
def dictInsert [DecidableEq κ] (d : List (κ × α)) (k : κ) (v : α) :
    List (κ × α) :=
  match d with
  | [] => [(k, v)]
  | (k0, v0) :: rest =>
      if k0 = k then (k0, v) :: rest else (k0, v0) :: dictInsert rest k v

/-- Python `d.update(d2)` for two dicts: assign every pair of `d2` into
`d`, in order. -/
def dictMerge (d d2 : List (String × PyVal)) : List (String × PyVal) :=
  d2.foldl (fun acc kv => dictInsert acc kv.1 kv.2) d

/-! ### A model of `json.dumps` / `json.loads`

`shared_context.py` serializes through the standard `json` module.  The
module is modelled by an executable renderer and recursive-descent
reader over `PyVal`.  Whitespace choices (`indent=2` in the source) are
immaterial: the reader skips whitespace wherever `json.loads` does, so
the compact renderer below is whitespace-equivalent to the source's
pretty output.  `ensure_ascii` escaping of non-ASCII characters is
modelled as pass-through (both spellings denote the same decoded
string), and numbers are integers in this model. -/

def isDigitCh (c : Char) : Bool := '0' ≤ c && c ≤ '9'

def isWsCh (c : Char) : Bool :=
  decide (c = ' ' ∨ c = '\t' ∨ c = '\n' ∨ c = '\r')

/-- Drop leading JSON whitespace. -/
def wsSkip : List Char → List Char
  | [] => []
  | c :: rest => if isWsCh c then wsSkip rest else c :: rest

/-- The decimal digit character of `d < 10`. -/
def digCh (d : Nat) : Char := Char.ofNat (48 + d)

/-- Lower-case hexadecimal digit character of `d < 16`. -/
def hexCh (d : Nat) : Char := if d < 10 then Char.ofNat (48 + d) else Char.ofNat (87 + d)

/-- Hexadecimal digit value, as `json.loads` accepts in a `\u` escape. -/
def hexValCh (c : Char) : Option Nat :=
  if isDigitCh c then some (c.toNat - 48)
  else if 'a' ≤ c && c ≤ 'f' then some (c.toNat - 87)
  else if 'A' ≤ c && c ≤ 'F' then some (c.toNat - 55)
  else none

/-- Decimal digit characters of a natural number, most significant
first, as `str(n)` prints it. -/
def natChars (n : Nat) : List Char :=
  if n = 0 then ['0'] else ((Nat.digits 10 n).map digCh).reverse

/-- Decimal characters of an integer, as `str(i)` prints it. -/
def intChars (i : Int) : List Char :=
  (if i < 0 then ['-'] else []) ++ natChars i.natAbs

/-- JSON escaping of one character, as `json.dumps` emits it: quote and
backslash escaped, control characters via the short escapes or a
`\u00XX` escape, everything else passed through. -/
def jEsc (c : Char) : List Char :=
  if c = '\\' then ['\\', '\\']
  else if c = '"' then ['\\', '"']
  else if c = '\n' then ['\\', 'n']
  else if c = '\t' then ['\\', 't']
  else if c = '\r' then ['\\', 'r']
  else if c.toNat = 8 then ['\\', 'b']
  else if c.toNat = 12 then ['\\', 'f']
  else if c.toNat < 32 then ['\\', 'u', '0', '0', hexCh (c.toNat / 16), hexCh (c.toNat % 16)]
  else [c]

/-- A rendered JSON string literal, quotes included. -/
def strChars (s : String) : List Char :=
  '"' :: (s.data.flatMap jEsc ++ ['"'])

mutual

/-- Render one value, as `json.dumps` does (modulo whitespace). -/
def jRender : PyVal → List Char
  | .int i => intChars i
  | .str s => strChars s
  | .list vs => '[' :: (jRenderItems vs ++ [']'])
  | .dict fs => '\x7b' :: (jRenderFields fs ++ ['\x7d'])
  | .null => ['n', 'u', 'l', 'l']
  | .bool false => ['f', 'a', 'l', 's', 'e']
  | .bool true => ['t', 'r', 'u', 'e']

/-- Render comma-separated array items. -/
def jRenderItems : List PyVal → List Char
  | [] => []
  | [v] => jRender v
  | v :: vs => jRender v ++ ',' :: jRenderItems vs

/-- Render comma-separated object members. -/
def jRenderFields : List (String × PyVal) → List Char
  | [] => []
  | [(k, v)] => strChars k ++ ':' :: jRender v
  | (k, v) :: fs => strChars k ++ ':' :: (jRender v ++ ',' :: jRenderFields fs)

end

/-- The model of `json.dumps(d, indent=2, default=str)` on a dict. -/
def jdumps (d : List (String × PyVal)) : String := String.mk (jRender (.dict d))

/-- One short JSON escape, as `json.loads` decodes it. -/
def unEsc (e : Char) : Option Char :=
  if e = 'n' then some '\n'
  else if e = 't' then some '\t'
  else if e = 'r' then some '\r'
  else if e = 'b' then some (Char.ofNat 8)
  else if e = 'f' then some (Char.ofNat 12)
  else if e = '/' then some '/'
  else if e = '"' then some '"'
  else if e = '\\' then some '\\'
  else none

/-- Scan a JSON string body after the opening quote, decoding escapes,
up to the closing quote. -/
def strScan : List Char → List Char → Option (String × List Char)
  | _, [] => none
  | acc, c :: rest =>
      if c = '"' then some (String.mk acc.reverse, rest)
      else if c = '\\' then
        match rest with
        | 'u' :: a :: b :: c2 :: d :: r2 =>
            match hexValCh a, hexValCh b, hexValCh c2, hexValCh d with
            | some wa, some wb, some wc, some wd =>
                strScan (Char.ofNat (((wa * 16 + wb) * 16 + wc) * 16 + wd) :: acc) r2
            | _, _, _, _ => none
        | e :: r2 =>
            match unEsc e with
            | some ch => strScan (ch :: acc) r2
            | none => none
        | [] => none
      else strScan (c :: acc) rest

/-- Split off a leading run of decimal digits. -/
def digitSpan : List Char → List Char × List Char
  | [] => ([], [])
  | c :: rest =>
      if isDigitCh c then
        let p := digitSpan rest
        (c :: p.1, p.2)
      else ([], c :: rest)

/-- Value of a big-endian digit-character run. -/
def digitsVal (ds : List Char) : Nat :=
  ds.foldl (fun a c => a * 10 + (c.toNat - 48)) 0

/-- Scan an integer literal (optional minus sign, then digits). -/
def numScan : List Char → Option (Int × List Char)
  | [] => none
  | c :: r =>
      if c = '-' then
        match digitSpan r with
        | ([], _) => none
        | (ds, rest) => some (-(digitsVal ds : Int), rest)
      else
        match digitSpan (c :: r) with
        | ([], _) => none
        | (ds, rest) => some ((digitsVal ds : Int), rest)

mutual

/-- Recursive-descent JSON value reader; the fuel falls on every nested
step, so structural termination is immediate. -/
def jParse : Nat → List Char → Option (PyVal × List Char)
  | 0, _ => none
  | fuel + 1, cs =>
      match wsSkip cs with
      | 'n' :: 'u' :: 'l' :: 'l' :: r => some (.null, r)
      | 't' :: 'r' :: 'u' :: 'e' :: r => some (.bool true, r)
      | 'f' :: 'a' :: 'l' :: 's' :: 'e' :: r => some (.bool false, r)
      | '"' :: r =>
          match strScan [] r with
          | some (s, r2) => some (.str s, r2)
          | none => none
      | '[' :: r =>
          match wsSkip r with
          | ']' :: r2 => some (.list [], r2)
          | r2 =>
              match jParseItems fuel r2 with
              | some (vs, r3) => some (.list vs, r3)
              | none => none
      | '\x7b' :: r =>
          match wsSkip r with
          | '\x7d' :: r2 => some (.dict [], r2)
          | r2 =>
              match jParseFields fuel r2 with
              | some (fs, r3) => some (.dict fs, r3)
              | none => none
      | c :: r =>
          if c = '-' || isDigitCh c then
            match numScan (c :: r) with
            | some (i, r2) => some (.int i, r2)
            | none => none
          else none
      | [] => none

/-- One-or-more comma-separated array items, ending at `]`. -/
def jParseItems : Nat → List Char → Option (List PyVal × List Char)
  | 0, _ => none
  | fuel + 1, cs =>
      match jParse fuel cs with
      | none => none
      | some (v, r) =>
          match wsSkip r with
          | ',' :: r2 =>
              match jParseItems fuel r2 with
              | some (vs, r3) => some (v :: vs, r3)
              | none => none
          | ']' :: r2 => some ([v], r2)
          | _ => none

/-- One-or-more comma-separated object members, ending at the closing
brace. -/
def jParseFields : Nat → List Char → Option (List (String × PyVal) × List Char)
  | 0, _ => none
  | fuel + 1, cs =>
      match wsSkip cs with
      | '"' :: r =>
          match strScan [] r with
          | none => none
          | some (k, r1) =>
              match wsSkip r1 with
              | ':' :: r2 =>
                  match jParse fuel r2 with
                  | none => none
                  | some (v, r3) =>
                      match wsSkip r3 with
                      | ',' :: r4 =>
                          match jParseFields fuel r4 with
                          | some (fs, r5) => some ((k, v) :: fs, r5)
                          | none => none
                      | '\x7d' :: r4 => some ([(k, v)], r4)
                      | _ => none
              | _ => none
      | _ => none

end

/-- The model of `json.loads`: read one value, allow trailing
whitespace only. -/
def jloads (s : String) : Option PyVal :=
  match jParse (s.data.length + 1) s.data with
  | some (v, r) => if (wsSkip r).isEmpty then some v else none
  | none => none

/-! ### `SharedContextManager` (src/core/shared_context.py)

The store-wide `threading.Lock` serializes every operation; in this
sequential model each operation is one atomic function on the state.
Change-log entries are Python dicts; their `datetime.now().isoformat()`
timestamp field is omitted (wall-clock time carries no verified
content), and the `set` difference/intersection used by `_log_update`
is modelled as an order-preserving filter. -/

structure SharedContextManager where
  _context : List (String × PyVal)
  _history : List PyVal

def SharedContextManager._max_history_size : Nat := 1000

def SharedContextManager.init : SharedContextManager := ⟨[], []⟩

/-- Append, then trim to the last `_max_history_size` entries, exactly
as the slice `self._history[-self._max_history_size:]` does. -/
def pyBoundedAppend (cap : Nat) (l : List α) (x : α) : List α :=
  let l2 := l ++ [x]
  if l2.length > cap then l2.drop (l2.length - cap) else l2

def SharedContextManager._add_to_history (c : SharedContextManager) (log_entry : PyVal) :
    SharedContextManager :=
  { c with _history := pyBoundedAppend SharedContextManager._max_history_size c._history log_entry }

/-- The body of `update`: merge under the lock, then `_log_update`
(which reads the post-merge key count). -/
def SharedContextManager.update (c : SharedContextManager) (new_data : List (String × PyVal)) :
    SharedContextManager :=
  let old_keys := c._context.map Prod.fst
  let ctx2 := dictMerge c._context new_data
  let new_keys := new_data.map Prod.fst
  let log_entry : PyVal := .dict
    [("action", .str ("update")),
     ("added_keys", .list ((new_keys.filter (fun k => !(old_keys.contains k))).map PyVal.str)),
     ("updated_keys", .list ((new_keys.filter (fun k => old_keys.contains k)).map PyVal.str)),
     ("total_keys", .int ctx2.length)]
  SharedContextManager._add_to_history { c with _context := ctx2 } log_entry

def SharedContextManager.get (c : SharedContextManager) (key : String) (default : PyVal) : PyVal :=
  dictGetD c._context key default

def SharedContextManager.size (c : SharedContextManager) : Nat := c._context.length

def SharedContextManager.export_to_json (c : SharedContextManager) : String :=
  jdumps c._context

/-- `import_from_json`: only `json.JSONDecodeError` is caught (the
store is then left untouched and the failure merely printed); a decoded
non-mapping value would raise out of `dict.update`, modelled as the
`error` result. -/
def SharedContextManager.import_from_json (c : SharedContextManager) (json_str : String) :
    Except String SharedContextManager :=
  match jloads json_str with
  | none => .ok c
  | some (.dict data) => .ok (c.update data)
  | some _ => .error ("TypeError")

/-! ### `EventBus` (src/core/event_bus.py)

Handlers are modelled as synchronous fallible functions: a raising
handler is the `Except.error` result.  Asynchronous subscribers (the
`asyncio.create_task` branch) are fire-and-forget and outside this
sequential model.  `publish` returns, besides the new bus state, the
list of caught per-handler results: the `try`/`except` sits inside the
subscriber loop in the source, so one handler's error is converted to a
logged entry and the loop continues with the next subscriber. -/

class PySummary (π : Type) where
  summarize : π → String

/-- `_summarize_payload` on plain Python values. -/
def summarizePy : PyVal → String
  | .dict fs => "Dict with " ++ toString fs.length ++ " keys"
  | .list vs => "list with " ++ toString vs.length ++ " items"
  | .str _ => "str"
  | .int _ => "int"
  | .bool _ => "bool"
  | .null => "NoneType"

instance : PySummary PyVal := ⟨summarizePy⟩

structure BusLogEntry where
  event_type : String
  payload_summary : String
deriving Repr, DecidableEq

structure EventBus (π : Type) where
  _subscribers : List (String × List (π → Except String Unit))
  _event_log : List BusLogEntry

def EventBus._max_log_size : Nat := 10000

def EventBus.init : EventBus π := ⟨[], []⟩

def EventBus.subscribe (b : EventBus π) (event_type : String) (callback : π → Except String Unit) :
    EventBus π :=
  { b with _subscribers :=
      dictInsert b._subscribers event_type (dictGetD b._subscribers event_type [] ++ [callback]) }

def EventBus._log_event [PySummary π] (b : EventBus π) (event_type : String) (payload : π) :
    EventBus π :=
  { b with _event_log :=
      (pyBoundedAppend EventBus._max_log_size b._event_log
        ⟨event_type, PySummary.summarize payload⟩) }

def EventBus.publish [PySummary π] (b : EventBus π) (event_type : String) (payload : π) :
    EventBus π × List (Except String Unit) :=
  let b1 := b._log_event event_type payload
  let subs := dictGetD b1._subscribers event_type []
  (b1, subs.map (fun h => h payload))

/-! ### `MasterControlProgram` (src/core/mcp.py) -/

inductive AgentType where
  | LA_SECRETARIA
  | EL_CALENDISTA
  | LA_ARCHIVISTA
  | EL_ESTRATEGA
deriving Repr, DecidableEq

def AgentType.pyName : AgentType → String
  | .LA_SECRETARIA => "LA_SECRETARIA"
  | .EL_CALENDISTA => "EL_CALENDISTA"
  | .LA_ARCHIVISTA => "LA_ARCHIVISTA"
  | .EL_ESTRATEGA => "EL_ESTRATEGA"

structure SystemEvent where
  type : String
  payload : PyVal
  timestamp : Int
  agent_origin : Option AgentType
  priority : Int

instance : PySummary SystemEvent := ⟨fun _ => "SystemEvent object"⟩

/-- `SystemEvent.__post_init__` validation: dataclass construction
either raises (so no invalid event value exists) or yields the record. -/
def mkSystemEvent (type : String) (payload : PyVal) (timestamp : Int)
    (agent_origin : Option AgentType) (priority : Int) : Except String SystemEvent :=
  if type = "" then .error ("Event type cannot be empty")
  else if payload.isDict = false then .error ("Event payload must be a dictionary")
  else if priority < 1 ∨ 10 < priority then .error ("Priority must be between 1 and 10")
  else .ok ⟨type, payload, timestamp, agent_origin, priority⟩

/-- A registered agent instance, seen through the capability the
orchestrator consumes: its class name (`type(agent).__name__`, the key
`_process_agent_results` uses) and its fallible `process` coroutine. -/
structure Worker where
  name : String
  process : SystemEvent → Except String PyVal

structure MasterControlProgram where
  agents : List (AgentType × Worker)
  event_bus : EventBus SystemEvent
  shared_context : SharedContextManager
  _routing_rules : List (String × List AgentType)
  _event_history : List SystemEvent

def MasterControlProgram._max_history_size : Nat := 1000

def _initialize_routing_rules : List (String × List AgentType) :=
  [("email_received", [.LA_SECRETARIA, .EL_CALENDISTA]),
   ("document_uploaded", [.LA_ARCHIVISTA, .EL_ESTRATEGA]),
   ("deadline_approaching", [.EL_CALENDISTA, .LA_SECRETARIA]),
   ("document_analyzed", [.LA_ARCHIVISTA, .EL_ESTRATEGA]),
   ("pattern_detected", [.EL_ESTRATEGA]),
   ("calendar_event_created", [.EL_CALENDISTA]),
   ("search_query", [.LA_ARCHIVISTA])]

def MasterControlProgram.init : MasterControlProgram :=
  ⟨[], EventBus.init, SharedContextManager.init, _initialize_routing_rules, []⟩

def MasterControlProgram.register_agent (m : MasterControlProgram)
    (agent_type : AgentType) (agent_instance : Worker) : MasterControlProgram :=
  { m with agents := dictInsert m.agents agent_type agent_instance }

def MasterControlProgram._determine_relevant_agents (m : MasterControlProgram)
    (event : SystemEvent) : List Worker :=
  (dictGetD m._routing_rules event.type []).filterMap (fun t => dictGet m.agents t)

/-- Fold of `processed[agent_name] = ...` over `zip(agents, results)`:
an exceptional result becomes the structured error entry, a normal one
is stored as is. -/
def MasterControlProgram._process_agent_results (agents : List Worker)
    (results : List (Except String PyVal)) : List (String × PyVal) :=
  (agents.zip results).foldl
    (fun processed ar =>
      dictInsert processed ar.1.name
        (match ar.2 with
         | .error e => PyVal.dict [("status", .str ("error")), ("error", .str e)]
         | .ok v => v))
    []

/-- The structured dictionary `process_event` returns, keyed by its
`status` field. -/
inductive Outcome where
  | no_agents (message : String) (event : String)
  | success (event : String) (agents_processed : Nat) (results : List (String × PyVal))
  | error (event : String) (error : String)

def MasterControlProgram._add_to_history (m : MasterControlProgram) (event : SystemEvent) :
    MasterControlProgram :=
  { m with _event_history :=
      pyBoundedAppend MasterControlProgram._max_history_size m._event_history event }

/-- `process_event`: record, publish, resolve, fan out (the
`asyncio.gather(..., return_exceptions=True)` join is the map of
per-worker `Except` results), aggregate, merge the summary into the
shared context.  The surrounding `try` can only produce the `error`
outcome from a failure of the aggregation machinery itself, which the
total model has no way to trigger. -/
def MasterControlProgram.process_event (m : MasterControlProgram) (event : SystemEvent) :
    MasterControlProgram × Outcome :=
  let m1 := m._add_to_history event
  let m2 := { m1 with event_bus := (m1.event_bus.publish event.type event).1 }
  let relevant_agents := m2._determine_relevant_agents event
  if relevant_agents.isEmpty then
    (m2, .no_agents ("No agents configured for event type: " ++ event.type) event.type)
  else
    let results := relevant_agents.map (fun a => a.process event)
    let processed_results := MasterControlProgram._process_agent_results relevant_agents results
    let m3 := { m2 with shared_context :=
      (m2.shared_context.update
        [("last_" ++ event.type,
          PyVal.dict [("timestamp", .int event.timestamp),
                      ("results", .dict processed_results)])]) }
    (m3, .success event.type relevant_agents.length processed_results)

/-- Python's `l[-limit:]` on a non-negative `limit`: for `limit = 0`
the slice is `l[0:]`, the whole list. -/
def pyLastSlice (limit : Nat) (l : List α) : List α :=
  if limit = 0 then l else l.drop (l.length - limit)

/-- `get_event_history`; an empty-string filter is falsy in Python and
behaves like no filter. -/
def MasterControlProgram.get_event_history (m : MasterControlProgram)
    (event_type : Option String) (limit : Nat) : List SystemEvent :=
  match event_type with
  | some t =>
      if t = "" then pyLastSlice limit m._event_history
      else pyLastSlice limit (m._event_history.filter (fun e => e.type == t))
  | none => pyLastSlice limit m._event_history

structure SystemStats where
  registered_agents : Nat
  agent_types : List String
  total_events_processed : Nat
  event_types : List String
  shared_context_keys : Nat
deriving Repr, DecidableEq

def MasterControlProgram.get_system_stats (m : MasterControlProgram) : SystemStats :=
  ⟨m.agents.length,
   m.agents.map (fun p => p.1.pyName),
   m._event_history.length,
   m._routing_rules.map Prod.fst,
   m.shared_context._context.length⟩

mutual

/-- Fuel needed by `jParse` for one value: one step per `jParse` /
`jParseItems` / `jParseFields` call along any path. -/
def jCost : PyVal → Nat
  | .list vs => 1 + jCostItems vs
  | .dict fs => 1 + jCostFields fs
  | _ => 1

def jCostItems : List PyVal → Nat
  | [] => 0
  | v :: vs => 1 + max (jCost v) (jCostItems vs)

def jCostFields : List (String × PyVal) → Nat
  | [] => 0
  | f :: fs => 1 + max (jCost f.2) (jCostFields fs)

end

/-- The aggregated-result entry `_process_agent_results` stores for one
worker: the structured error dictionary if its `process` raised, its
result otherwise. -/
def workerResultEntry (w : Worker) (event : SystemEvent) : PyVal :=
  match w.process event with
  | .error e => PyVal.dict [("status", .str ("error")), ("error", .str e)]
  | .ok v => v

/-- Truth of this predicate on the remainder keeps a greedy digit scan
from running past a rendered number: the remainder is empty or starts
with a non-digit. -/
def noDigitHead : List Char → Bool
  | [] => true
  | c :: _ => !isDigitCh c

/-! ### Concrete fixtures for witnesses and counterexamples -/

/-- A worker whose `process` raises. -/
def failingWorker : Worker := ⟨"FailingAgent", fun _ => Except.error ("boom")⟩

/-- A worker whose `process` succeeds. -/
def succeedingWorker : Worker :=
  ⟨"OkAgent", fun _ => Except.ok (PyVal.dict [("done", PyVal.bool true)])⟩

/-- Two distinct registered instances of the same class (as two `Mock`
objects would be): one failing, one succeeding. -/
def mockFailing : Worker := ⟨"Mock", fun _ => Except.error ("boom")⟩

def mockSucceeding : Worker := ⟨"Mock", fun _ => Except.ok PyVal.null⟩

def mockOkOne : Worker := ⟨"Mock", fun _ => Except.ok (PyVal.int 1)⟩

def mockOkTwo : Worker := ⟨"Mock", fun _ => Except.ok (PyVal.int 2)⟩

/-- An orchestrator with both `email_received` identities registered,
one failing and one succeeding worker of distinct classes. -/
def mcpMixed : MasterControlProgram :=
  (MasterControlProgram.init.register_agent AgentType.LA_SECRETARIA
    failingWorker).register_agent AgentType.EL_CALENDISTA succeedingWorker

/-- An orchestrator with only the first `email_received` identity
registered. -/
def mcpOnlyA : MasterControlProgram :=
  MasterControlProgram.init.register_agent AgentType.LA_SECRETARIA succeedingWorker

/-- Both routed identities registered with same-class instances, the
first failing. -/
def mcpSameClassMixed : MasterControlProgram :=
  (MasterControlProgram.init.register_agent AgentType.LA_SECRETARIA
    mockFailing).register_agent AgentType.EL_CALENDISTA mockSucceeding

/-- Both routed identities registered with same-class instances, both
succeeding. -/
def mcpSameClassOk : MasterControlProgram :=
  (MasterControlProgram.init.register_agent AgentType.LA_SECRETARIA
    mockOkOne).register_agent AgentType.EL_CALENDISTA mockOkTwo

/-- A valid event of the routed kind `email_received`. -/
def emailEvent : SystemEvent := ⟨"email_received", PyVal.dict [], 0, none, 5⟩

/-! ## Helper lemmas -/

theorem dictGet_dictInsert_self [DecidableEq κ] (d : List (κ × α)) (k : κ) (v : α) :
    dictGet (dictInsert d k v) k = some v := by
  induction d with
  | nil => simp [dictInsert, dictGet]
  | cons p rest ih =>
      obtain ⟨k0, v0⟩ := p
      by_cases h : k0 = k
      · subst h; simp [dictInsert, dictGet]
      · simp [dictInsert, dictGet, h, ih]

theorem dictGet_dictInsert_ne [DecidableEq κ] (d : List (κ × α)) (k k2 : κ) (v : α)
    (h : k ≠ k2) : dictGet (dictInsert d k v) k2 = dictGet d k2 := by
  induction d with
  | nil => simp [dictInsert, dictGet, h]
  | cons p rest ih =>
      obtain ⟨k0, v0⟩ := p
      by_cases h0 : k0 = k
      · subst h0; simp [dictInsert, dictGet, h]
      · by_cases h2 : k0 = k2
        · subst h2; simp [dictInsert, dictGet, h0]
        · simp [dictInsert, dictGet, h0, h2, ih]

theorem keys_dictInsert [DecidableEq κ] (d : List (κ × α)) (k : κ) (v : α) :
    (dictInsert d k v).map Prod.fst
      = if k ∈ d.map Prod.fst then d.map Prod.fst else d.map Prod.fst ++ [k] := by
  induction d with
  | nil => simp [dictInsert]
  | cons p rest ih =>
      obtain ⟨k0, v0⟩ := p
      by_cases h : k0 = k
      · subst h; simp [dictInsert]
      · have hne : ¬k = k0 := fun hh => h hh.symm
        simp only [dictInsert, if_neg h, List.map_cons, ih]
        by_cases hm : k ∈ rest.map Prod.fst
        · simp [hm, hne]
        · simp [hm, hne]

theorem dictGet_foldl_insert_not_mem [DecidableEq κ] (pairs : List (κ × α)) :
    ∀ (acc : List (κ × α)) (k : κ), (∀ p ∈ pairs, p.1 ≠ k) →
      dictGet (pairs.foldl (fun a p => dictInsert a p.1 p.2) acc) k = dictGet acc k := by
  induction pairs with
  | nil => intro acc k _; rfl
  | cons p rest ih =>
      intro acc k h
      have hp : p.1 ≠ k := h p (List.mem_cons_self p rest)
      rw [List.foldl_cons, ih _ k (fun q hq => h q (List.mem_cons_of_mem p hq)),
        dictGet_dictInsert_ne _ _ _ _ hp]

theorem dictGet_foldl_insert_mem [DecidableEq κ] (pairs : List (κ × α)) :
    ∀ (acc : List (κ × α)) (k : κ) (v : α), (pairs.map Prod.fst).Nodup →
      (k, v) ∈ pairs →
      dictGet (pairs.foldl (fun a p => dictInsert a p.1 p.2) acc) k = some v := by
  induction pairs with
  | nil => intro _ _ _ _ hm; cases hm
  | cons p rest ih =>
      intro acc k v hnd hm
      rw [List.map_cons, List.nodup_cons] at hnd
      rcases List.mem_cons.mp hm with heq | htail
      · subst heq
        rw [List.foldl_cons,
          dictGet_foldl_insert_not_mem rest _ k
            (fun q hq hqk => hnd.1 (by simpa [hqk] using List.mem_map_of_mem Prod.fst hq)),
          dictGet_dictInsert_self]
      · exact ih _ k v hnd.2 htail

theorem keys_foldl_insert [DecidableEq κ] (pairs : List (κ × α)) :
    ∀ acc : List (κ × α), (pairs.map Prod.fst).Nodup →
      (∀ p ∈ pairs, p.1 ∉ acc.map Prod.fst) →
      (pairs.foldl (fun a p => dictInsert a p.1 p.2) acc).map Prod.fst
        = acc.map Prod.fst ++ pairs.map Prod.fst := by
  induction pairs with
  | nil => intro acc _ _; simp
  | cons p rest ih =>
      intro acc hnd hdisj
      rw [List.map_cons, List.nodup_cons] at hnd
      have hp : p.1 ∉ acc.map Prod.fst := hdisj p (List.mem_cons_self p rest)
      have hkeys : (dictInsert acc p.1 p.2).map Prod.fst = acc.map Prod.fst ++ [p.1] := by
        rw [keys_dictInsert, if_neg hp]
      rw [List.foldl_cons, ih _ hnd.2, hkeys]
      · simp
      · intro q hq
        rw [hkeys]
        intro hmem
        rcases List.mem_append.mp hmem with h1 | h2
        · exact hdisj q (List.mem_cons_of_mem p hq) h1
        · rw [List.mem_singleton] at h2
          exact hnd.1 (h2 ▸ List.mem_map_of_mem Prod.fst hq)

theorem pyBoundedAppend_eq_drop (cap : Nat) (l : List α) (x : α) :
    pyBoundedAppend cap l x = (l ++ [x]).drop ((l.length + 1) - cap) := by
  simp only [pyBoundedAppend]
  split
  · rename_i h
    congr 1
    simp
  · rename_i h
    simp only [List.length_append, List.length_cons, List.length_nil] at h
    have h0 : l.length + 1 - cap = 0 := by omega
    rw [h0, List.drop_zero]

theorem pyBoundedAppend_length_le (cap : Nat) (l : List α) (x : α) :
    (pyBoundedAppend cap l x).length ≤ cap := by
  rw [pyBoundedAppend_eq_drop, List.length_drop]
  simp only [List.length_append, List.length_cons, List.length_nil]
  omega

theorem foldl_pyBoundedAppend (cap : Nat) (xs : List α) :
    ∀ s : List α, s.length ≤ cap →
      xs.foldl (pyBoundedAppend cap) s = (s ++ xs).drop ((s.length + xs.length) - cap) := by
  induction xs with
  | nil =>
      intro s hs
      simp only [List.foldl_nil, List.append_nil, List.length_nil, Nat.add_zero]
      have h0 : s.length - cap = 0 := by omega
      rw [h0, List.drop_zero]
  | cons x xs ih =>
      intro s hs
      rw [List.foldl_cons, pyBoundedAppend_eq_drop]
      have hlen : ((s ++ [x]).drop (s.length + 1 - cap)).length ≤ cap := by
        rw [List.length_drop]
        simp only [List.length_append, List.length_cons, List.length_nil]
        omega
      rw [ih _ hlen]
      have hd : s.length + 1 - cap ≤ (s ++ [x]).length := by
        simp only [List.length_append, List.length_cons, List.length_nil]
        omega
      rw [← List.drop_append_of_le_length hd, List.drop_drop, List.append_cons s x xs]
      congr 1
      rw [List.length_drop]
      simp only [List.length_append, List.length_cons, List.length_nil]
      omega

/-! ## Claim C3: event construction validation -/

/-- C3: `SystemEvent` construction succeeds exactly for a non-empty
kind, a mapping payload, and a priority in `[1, 10]`; it fails at
construction otherwise, and any constructed event carries exactly the
validated fields, so no event is ever observable in an invalid state. -/
theorem claim_C3 (ty : String) (p : PyVal) (ts : Int) (o : Option AgentType) (pr : Int) :
    ((∃ e, mkSystemEvent ty p ts o pr = Except.ok e) ↔
      (ty ≠ "" ∧ p.isDict = true ∧ 1 ≤ pr ∧ pr ≤ 10)) ∧
    (∀ e, mkSystemEvent ty p ts o pr = Except.ok e →
      e.type = ty ∧ e.payload = p ∧ e.timestamp = ts ∧ e.agent_origin = o ∧ e.priority = pr) := by
  unfold mkSystemEvent
  split_ifs with h1 h2 h3
  · exact ⟨⟨fun ⟨e, he⟩ => by simp at he, fun hr => absurd h1 hr.1⟩,
      fun e he => by simp at he⟩
  · refine ⟨⟨fun ⟨e, he⟩ => by simp at he, fun hr => ?_⟩, fun e he => by simp at he⟩
    exact absurd hr.2.1 (by simp [h2])
  · refine ⟨⟨fun ⟨e, he⟩ => by simp at he, fun hr => ?_⟩, fun e he => by simp at he⟩
    obtain ⟨-, -, h4, h5⟩ := hr
    omega
  · constructor
    · constructor
      · intro _
        refine ⟨h1, ?_, ?_, ?_⟩
        · cases hb : p.isDict
          · exact absurd hb h2
          · rfl
        · omega
        · omega
      · intro _
        exact ⟨_, rfl⟩
    · intro e he
      injection he with h
      subst h
      exact ⟨rfl, rfl, rfl, rfl, rfl⟩

/-- C3 witness: a concrete valid construction, via the theorem. -/
theorem claim_C3_witness :
    ∃ e, mkSystemEvent ("email_received") (PyVal.dict []) 17 none 5 = Except.ok e :=
  (claim_C3 ("email_received") (PyVal.dict []) 17 none 5).1.mpr
    ⟨by decide, rfl, by omega, by omega⟩

/-! ## Claim C9: handler errors are isolated inside `publish` -/

/-- C9: `publish` appends its one activity-log entry and returns
normally; the caught per-handler results are exactly one entry per
subscriber of the topic, each handler's own outcome, independent of any
other handler raising: an error is converted to a logged entry, never
propagated to the publisher, and every other subscriber is still
invoked. -/
theorem claim_C9 {π : Type} [PySummary π] (b : EventBus π) (event_type : String) (payload : π) :
    (b.publish event_type payload).1._event_log
        = pyBoundedAppend EventBus._max_log_size b._event_log
            ⟨event_type, PySummary.summarize payload⟩ ∧
    ((b.publish event_type payload).2).length = (dictGetD b._subscribers event_type []).length ∧
    ∀ i : Nat, ((b.publish event_type payload).2)[i]?
        = ((dictGetD b._subscribers event_type [])[i]?).map (fun h => h payload) := by
  refine ⟨rfl, ?_, fun i => ?_⟩
  · simp [EventBus.publish, EventBus._log_event]
  · simp [EventBus.publish, EventBus._log_event]

/-! ## Claim C7: `get_event_history` at `limit = 0` -/

/-- C7, the failing input: with exactly one recorded event,
`get_event_history(limit=0)` returns that whole one-entry list — the
slice `[-0:]` is `[0:]` — where the claim (and the method's own
docstring, which calls `limit` the maximum number of events to return)
requires the empty list. -/
theorem claim_C7_bug :
    (MasterControlProgram.init.process_event ⟨"ping", .dict [], 0, none, 5⟩).1.get_event_history
        none 0 = [⟨"ping", PyVal.dict [], 0, none, 5⟩] ∧
    (MasterControlProgram.init.process_event ⟨"ping", .dict [], 0, none, 5⟩).1.get_event_history
        (some ("ping")) 0 = [⟨"ping", PyVal.dict [], 0, none, 5⟩] := by
  constructor <;> rfl

/-! ## Claim C5: bounded logs never exceed capacity -/

theorem foldl_add_to_history_mcp (es : List SystemEvent) :
    ∀ m : MasterControlProgram,
      (es.foldl MasterControlProgram._add_to_history m)._event_history
        = es.foldl (pyBoundedAppend MasterControlProgram._max_history_size) m._event_history := by
  induction es with
  | nil => intro m; rfl
  | cons e es ih => intro m; rw [List.foldl_cons, List.foldl_cons, ih]; rfl

theorem foldl_add_to_history_ctx (ls : List PyVal) :
    ∀ c : SharedContextManager,
      (ls.foldl SharedContextManager._add_to_history c)._history
        = ls.foldl (pyBoundedAppend SharedContextManager._max_history_size) c._history := by
  induction ls with
  | nil => intro c; rfl
  | cons l ls ih => intro c; rw [List.foldl_cons, List.foldl_cons, ih]; rfl

theorem foldl_log_event_bus (ps : List (String × SystemEvent)) :
    ∀ b : EventBus SystemEvent,
      (ps.foldl (fun b2 tp => b2._log_event tp.1 tp.2) b)._event_log
        = (ps.map (fun tp => (⟨tp.1, PySummary.summarize tp.2⟩ : BusLogEntry))).foldl
            (pyBoundedAppend EventBus._max_log_size) b._event_log := by
  induction ps with
  | nil => intro b; rfl
  | cons tp ps ih => intro b; rw [List.foldl_cons, List.map_cons, List.foldl_cons, ih]; rfl

/-- C5: each bounded log (orchestrator event history at 1000,
ContextStore change history at 1000, EventBus activity log at 10000)
stays within its capacity after every single append from any state, and
appending a whole sequence from fresh keeps exactly the most recent
`capacity` entries in append order, the oldest ones dropped; appends
are total functions, so no overflow ever raises. -/
theorem claim_C5 :
    (∀ (m : MasterControlProgram) (e : SystemEvent),
        ((m._add_to_history e)._event_history).length ≤ 1000) ∧
    (∀ (c : SharedContextManager) (entry : PyVal),
        ((c._add_to_history entry)._history).length ≤ 1000) ∧
    (∀ (b : EventBus SystemEvent) (t : String) (p : SystemEvent),
        ((b._log_event t p)._event_log).length ≤ 10000) ∧
    (∀ es : List SystemEvent,
        (es.foldl MasterControlProgram._add_to_history MasterControlProgram.init)._event_history
            = es.drop (es.length - 1000) ∧
        ((es.foldl MasterControlProgram._add_to_history
            MasterControlProgram.init)._event_history).length = min es.length 1000) ∧
    (∀ ls : List PyVal,
        (ls.foldl SharedContextManager._add_to_history SharedContextManager.init)._history
            = ls.drop (ls.length - 1000) ∧
        ((ls.foldl SharedContextManager._add_to_history
            SharedContextManager.init)._history).length = min ls.length 1000) ∧
    (∀ ps : List (String × SystemEvent),
        (ps.foldl (fun b tp => b._log_event tp.1 tp.2) EventBus.init)._event_log
            = (ps.map (fun tp => (⟨tp.1, PySummary.summarize tp.2⟩ : BusLogEntry))).drop
                (ps.length - 10000) ∧
        ((ps.foldl (fun b tp => b._log_event tp.1 tp.2) EventBus.init)._event_log).length
            = min ps.length 10000) := by
  have hmcp : ∀ es : List SystemEvent,
      (es.foldl MasterControlProgram._add_to_history MasterControlProgram.init)._event_history
        = es.drop (es.length - 1000) := by
    intro es
    rw [foldl_add_to_history_mcp,
      show MasterControlProgram.init._event_history = ([] : List SystemEvent) from rfl,
      foldl_pyBoundedAppend MasterControlProgram._max_history_size es [] (by simp)]
    simp [MasterControlProgram._max_history_size]
  have hctx : ∀ ls : List PyVal,
      (ls.foldl SharedContextManager._add_to_history SharedContextManager.init)._history
        = ls.drop (ls.length - 1000) := by
    intro ls
    rw [foldl_add_to_history_ctx,
      show SharedContextManager.init._history = ([] : List PyVal) from rfl,
      foldl_pyBoundedAppend SharedContextManager._max_history_size ls [] (by simp)]
    simp [SharedContextManager._max_history_size]
  have hbus : ∀ ps : List (String × SystemEvent),
      (ps.foldl (fun b tp => b._log_event tp.1 tp.2) EventBus.init)._event_log
        = (ps.map (fun tp => (⟨tp.1, PySummary.summarize tp.2⟩ : BusLogEntry))).drop
            (ps.length - 10000) := by
    intro ps
    rw [foldl_log_event_bus,
      show (EventBus.init : EventBus SystemEvent)._event_log = ([] : List BusLogEntry) from rfl,
      foldl_pyBoundedAppend EventBus._max_log_size _ [] (by simp)]
    simp [EventBus._max_log_size]
  refine ⟨fun m e => pyBoundedAppend_length_le 1000 _ _,
    fun c entry => pyBoundedAppend_length_le 1000 _ _,
    fun b t p => pyBoundedAppend_length_le 10000 _ _,
    fun es => ⟨hmcp es, ?_⟩, fun ls => ⟨hctx ls, ?_⟩, fun ps => ⟨hbus ps, ?_⟩⟩
  · rw [hmcp es, List.length_drop]; omega
  · rw [hctx ls, List.length_drop]; omega
  · rw [hbus ps, List.length_drop, List.length_map]; omega

/-! ## Claim C6: `get_system_stats` and the trimmed history -/

theorem process_event_history (m : MasterControlProgram) (e : SystemEvent) :
    ((m.process_event e).1)._event_history
      = pyBoundedAppend MasterControlProgram._max_history_size m._event_history e := by
  unfold MasterControlProgram.process_event
  dsimp only
  split <;> rfl

theorem foldl_process_event_history (es : List SystemEvent) :
    ∀ m : MasterControlProgram,
      (es.foldl (fun mm e => (mm.process_event e).1) m)._event_history
        = es.foldl (pyBoundedAppend MasterControlProgram._max_history_size) m._event_history := by
  induction es with
  | nil => intro m; rfl
  | cons e es ih =>
      intro m
      rw [List.foldl_cons, List.foldl_cons, ih, process_event_history]

theorem foldl_register_agent_history (rs : List (AgentType × Worker)) :
    ∀ m : MasterControlProgram,
      (rs.foldl (fun mm rw2 => mm.register_agent rw2.1 rw2.2) m)._event_history
        = m._event_history := by
  induction rs with
  | nil => intro m; rfl
  | cons r rs ih => intro m; rw [List.foldl_cons, ih]; rfl

/-- C6 (amended): after any registrations and `N` `process_event` calls
on a fresh orchestrator, `get_system_stats` reports `min N 1000` as the
total event count — the length of the trimmed history ring buffer, not
the true historical total once `N` exceeds the capacity of 1000 — and
reports, together with it, the registered-worker count, the registered
identities, the routable kinds, and the ContextStore size. -/
theorem claim_C6 (regs : List (AgentType × Worker)) (es : List SystemEvent) :
    ((es.foldl (fun mm e => (mm.process_event e).1)
        (regs.foldl (fun mm rw2 => mm.register_agent rw2.1 rw2.2)
          MasterControlProgram.init)).get_system_stats).total_events_processed
      = min es.length 1000 ∧
    (∀ m : MasterControlProgram,
      m.get_system_stats
        = ⟨m.agents.length, m.agents.map (fun p => p.1.pyName), m._event_history.length,
           m._routing_rules.map Prod.fst, m.shared_context._context.length⟩) := by
  have hstat : ∀ m : MasterControlProgram,
      (m.get_system_stats).total_events_processed = m._event_history.length := fun _ => rfl
  constructor
  · rw [hstat]
    rw [foldl_process_event_history, foldl_register_agent_history,
      show MasterControlProgram.init._event_history = ([] : List SystemEvent) from rfl,
      foldl_pyBoundedAppend MasterControlProgram._max_history_size es [] (by simp),
      List.length_drop]
    simp only [List.nil_append, List.length_nil, Nat.zero_add,
      MasterControlProgram._max_history_size]
    omega
  · intro m
    rfl

/-- C6 counterexample: 1001 dispatches on a fresh orchestrator leave
`total_events_processed` at 1000, not at the claimed total 1001. -/
theorem claim_C6_cex :
    (List.replicate 1001 (⟨"ping", PyVal.dict [], 0, none, 5⟩ : SystemEvent)).length = 1001 ∧
    (((List.replicate 1001 (⟨"ping", PyVal.dict [], 0, none, 5⟩ : SystemEvent)).foldl
        (fun mm e => (mm.process_event e).1)
        MasterControlProgram.init).get_system_stats).total_events_processed = 1000 := by
  have hstat : ∀ m : MasterControlProgram,
      (m.get_system_stats).total_events_processed = m._event_history.length := fun _ => rfl
  constructor
  · rw [List.length_replicate]
  · rw [hstat]
    rw [foldl_process_event_history,
      show MasterControlProgram.init._event_history = ([] : List SystemEvent) from rfl,
      foldl_pyBoundedAppend MasterControlProgram._max_history_size _ [] (by simp),
      List.length_drop]
    simp only [List.nil_append, List.length_nil, Nat.zero_add, List.length_replicate,
      MasterControlProgram._max_history_size]

/-! ## Claim C4: empty worker set leaves the ContextStore untouched -/

/-- C4: when the routed-and-registered worker set for an event is
empty, `process_event` returns the `no_agents` outcome naming the
event's kind, and the ContextStore — key/value map and change history
alike — is exactly what it was before the call, so in particular no
`last_<kind>` key is written. -/
theorem claim_C4 (m : MasterControlProgram) (event : SystemEvent)
    (h : m._determine_relevant_agents event = []) :
    (m.process_event event).2
        = Outcome.no_agents ("No agents configured for event type: " ++ event.type) event.type ∧
    ((m.process_event event).1).shared_context = m.shared_context ∧
    ((m.process_event event).1).shared_context._context = m.shared_context._context := by
  have h2 : (dictGetD m._routing_rules event.type []).filterMap (fun t => dictGet m.agents t)
      = [] := by
    simpa [MasterControlProgram._determine_relevant_agents] using h
  unfold MasterControlProgram.process_event MasterControlProgram._determine_relevant_agents
    MasterControlProgram._add_to_history
  dsimp only
  rw [h2]
  exact ⟨rfl, rfl, rfl⟩

/-- C4 witness: a fresh orchestrator routes `email_received` to two
identities, neither registered, so the resolved set is empty; the call
reports `no_agents` and the ContextStore is untouched. -/
theorem claim_C4_witness :
    MasterControlProgram.init._determine_relevant_agents emailEvent = [] ∧
    (MasterControlProgram.init.process_event emailEvent).2
        = Outcome.no_agents ("No agents configured for event type: " ++ emailEvent.type)
            emailEvent.type ∧
    ((MasterControlProgram.init.process_event emailEvent).1).shared_context
        = MasterControlProgram.init.shared_context :=
  ⟨rfl, (claim_C4 MasterControlProgram.init emailEvent rfl).1,
    (claim_C4 MasterControlProgram.init emailEvent rfl).2.1⟩

/-! ## Claims C1 and C2: aggregation over the resolved worker set -/

theorem process_event_success (m : MasterControlProgram) (event : SystemEvent)
    (h : m._determine_relevant_agents event ≠ []) :
    (m.process_event event).2
      = Outcome.success event.type (m._determine_relevant_agents event).length
          (MasterControlProgram._process_agent_results (m._determine_relevant_agents event)
            ((m._determine_relevant_agents event).map (fun a => a.process event))) := by
  have h2 : (dictGetD m._routing_rules event.type []).filterMap (fun t => dictGet m.agents t)
      ≠ [] := by
    simpa [MasterControlProgram._determine_relevant_agents] using h
  unfold MasterControlProgram.process_event MasterControlProgram._determine_relevant_agents
    MasterControlProgram._add_to_history
  dsimp only
  rcases hX : (dictGetD m._routing_rules event.type []).filterMap (fun t => dictGet m.agents t)
    with _ | ⟨w, ws⟩
  · exact absurd hX h2
  · simp [hX]

theorem zip_map_self (ws : List α) (f : α → β) :
    ws.zip (ws.map f) = ws.map (fun w => (w, f w)) := by
  induction ws with
  | nil => rfl
  | cons w ws ih => simp [ih]

theorem process_agent_results_eq (ws : List Worker) (f : Worker → Except String PyVal) :
    MasterControlProgram._process_agent_results ws (ws.map f)
      = (ws.map (fun w => (w.name,
            match f w with
            | .error e => PyVal.dict [("status", PyVal.str ("error")), ("error", PyVal.str e)]
            | .ok v => v))).foldl (fun a p => dictInsert a p.1 p.2) [] := by
  unfold MasterControlProgram._process_agent_results
  rw [zip_map_self, List.foldl_map, List.foldl_map]

theorem process_agent_results_lookup (ws : List Worker) (f : Worker → Except String PyVal)
    (hnd : (ws.map Worker.name).Nodup) (w : Worker) (hw : w ∈ ws) :
    dictGet (MasterControlProgram._process_agent_results ws (ws.map f)) w.name
      = some (match f w with
              | .error e => PyVal.dict [("status", PyVal.str ("error")), ("error", PyVal.str e)]
              | .ok v => v) := by
  rw [process_agent_results_eq]
  apply dictGet_foldl_insert_mem
  · rw [List.map_map]
    exact hnd
  · exact List.mem_map_of_mem _ hw

theorem process_agent_results_keys (ws : List Worker) (f : Worker → Except String PyVal)
    (hnd : (ws.map Worker.name).Nodup) :
    (MasterControlProgram._process_agent_results ws (ws.map f)).map Prod.fst
      = ws.map Worker.name := by
  rw [process_agent_results_eq, keys_foldl_insert]
  · simp
  · rw [List.map_map]
    exact hnd
  · intro p hp
    simp

/-- C1 (amended): for an event with a non-empty resolved worker set
whose instances' class names are pairwise distinct (the aggregated
mapping is keyed by `type(agent).__name__`), the outcome is `success`
even when some workers raise; the aggregated mapping holds exactly one
entry per resolved worker under its class name — the structured
`{status: error, error: ...}` entry for a raising worker, the real
result for a succeeding one — and no worker's failure removes or
alters a sibling's entry or escalates the outcome. -/
theorem claim_C1 (m : MasterControlProgram) (event : SystemEvent)
    (hne : m._determine_relevant_agents event ≠ [])
    (hnd : ((m._determine_relevant_agents event).map Worker.name).Nodup)
    (wA wB : Worker) (hA : wA ∈ m._determine_relevant_agents event)
    (hB : wB ∈ m._determine_relevant_agents event)
    (eA : String) (hfail : wA.process event = Except.error eA)
    (vB : PyVal) (hokB : wB.process event = Except.ok vB) :
    ∃ res, (m.process_event event).2
        = Outcome.success event.type (m._determine_relevant_agents event).length res ∧
      dictGet res wA.name
        = some (PyVal.dict [("status", PyVal.str ("error")), ("error", PyVal.str eA)]) ∧
      dictGet res wB.name = some vB ∧
      ∀ w ∈ m._determine_relevant_agents event,
        dictGet res w.name = some (workerResultEntry w event) := by
  refine ⟨_, process_event_success m event hne, ?_, ?_, ?_⟩
  · have hl := process_agent_results_lookup _ (fun a => a.process event) hnd wA hA
    simp only [hfail] at hl
    exact hl
  · have hl := process_agent_results_lookup _ (fun a => a.process event) hnd wB hB
    simp only [hokB] at hl
    exact hl
  · intro w hw
    have hl := process_agent_results_lookup _ (fun a => a.process event) hnd w hw
    rw [workerResultEntry]
    exact hl

/-- C1 witness: both `email_received` identities registered with
distinct classes, the first raising, the second succeeding. -/
theorem claim_C1_witness :
    mcpMixed._determine_relevant_agents emailEvent ≠ [] ∧
    ((mcpMixed._determine_relevant_agents emailEvent).map Worker.name).Nodup ∧
    failingWorker.process emailEvent = Except.error ("boom") ∧
    succeedingWorker.process emailEvent = Except.ok (PyVal.dict [("done", PyVal.bool true)]) ∧
    ∃ res, (mcpMixed.process_event emailEvent).2
        = Outcome.success emailEvent.type
            (mcpMixed._determine_relevant_agents emailEvent).length res ∧
      dictGet res failingWorker.name
        = some (PyVal.dict [("status", PyVal.str ("error")), ("error", PyVal.str ("boom"))]) ∧
      dictGet res succeedingWorker.name = some (PyVal.dict [("done", PyVal.bool true)]) ∧
      ∀ w ∈ mcpMixed._determine_relevant_agents emailEvent,
        dictGet res w.name = some (workerResultEntry w emailEvent) := by
  have hrel : mcpMixed._determine_relevant_agents emailEvent
      = [failingWorker, succeedingWorker] := rfl
  have hne : mcpMixed._determine_relevant_agents emailEvent ≠ [] := by
    rw [hrel]
    exact List.cons_ne_nil _ _
  have hnd : ((mcpMixed._determine_relevant_agents emailEvent).map Worker.name).Nodup := by
    rw [hrel]
    decide
  have hA : failingWorker ∈ mcpMixed._determine_relevant_agents emailEvent := by
    rw [hrel]
    exact List.mem_cons_self _ _
  have hB : succeedingWorker ∈ mcpMixed._determine_relevant_agents emailEvent := by
    rw [hrel]
    exact List.mem_cons_of_mem _ (List.mem_cons_self _ _)
  exact ⟨hne, hnd, rfl, rfl,
    claim_C1 mcpMixed emailEvent hne hnd failingWorker succeedingWorker hA hB
      ("boom") rfl (PyVal.dict [("done", PyVal.bool true)]) rfl⟩

/-- C1 counterexample: two resolved workers whose instances share one
class name (two `Mock`-class instances), the first raising and the
second succeeding, leave a single aggregated entry — the second
worker's result overwrote the first worker's structured error entry, so
the failing resolved worker has no entry of its own. -/
theorem claim_C1_cex :
    mcpSameClassMixed._determine_relevant_agents emailEvent = [mockFailing, mockSucceeding] ∧
    mockFailing.process emailEvent = Except.error ("boom") ∧
    (mcpSameClassMixed.process_event emailEvent).2
      = Outcome.success ("email_received") 2 [("Mock", PyVal.null)] ∧
    dictGet [(("Mock" : String), PyVal.null)] ("Mock")
      ≠ some (PyVal.dict [("status", PyVal.str ("error")), ("error", PyVal.str ("boom"))]) := by
  refine ⟨rfl, rfl, rfl, ?_⟩
  intro hc
  simp [dictGet] at hc

/-- C2 (amended): a resolved worker set is exactly the routing-table
entry for the event's kind filtered to registered identities, in
routing order, so an unregistered routed identity contributes no entry
and no error; when the resolved instances' class names are pairwise
distinct, the aggregated mapping holds exactly one entry per resolved
worker, keyed by the instance's class name in resolution order. -/
theorem claim_C2 (m : MasterControlProgram) (event : SystemEvent)
    (hnd : ((m._determine_relevant_agents event).map Worker.name).Nodup) :
    m._determine_relevant_agents event
        = (dictGetD m._routing_rules event.type []).filterMap (fun t => dictGet m.agents t) ∧
    (MasterControlProgram._process_agent_results (m._determine_relevant_agents event)
        ((m._determine_relevant_agents event).map (fun a => a.process event))).map Prod.fst
      = (m._determine_relevant_agents event).map Worker.name ∧
    (m._determine_relevant_agents event ≠ [] →
      ∃ res, (m.process_event event).2
          = Outcome.success event.type (m._determine_relevant_agents event).length res ∧
        res.map Prod.fst = (m._determine_relevant_agents event).map Worker.name ∧
        res.length = (m._determine_relevant_agents event).length) := by
  refine ⟨rfl, process_agent_results_keys _ _ hnd, fun hne => ⟨_, process_event_success m event hne, ?_, ?_⟩⟩
  · exact process_agent_results_keys _ _ hnd
  · have hk := process_agent_results_keys (m._determine_relevant_agents event)
      (fun a => a.process event) hnd
    have := congrArg List.length hk
    simpa using this

/-- C2 witness: routing `email_received` to two identities with only
the first registered yields exactly one aggregated entry, keyed by the
registered worker's class name. -/
theorem claim_C2_witness :
    ((mcpOnlyA._determine_relevant_agents emailEvent).map Worker.name).Nodup ∧
    mcpOnlyA._determine_relevant_agents emailEvent = [succeedingWorker] ∧
    (mcpOnlyA._determine_relevant_agents emailEvent ≠ [] →
      ∃ res, (mcpOnlyA.process_event emailEvent).2
          = Outcome.success emailEvent.type
              (mcpOnlyA._determine_relevant_agents emailEvent).length res ∧
        res.map Prod.fst = (mcpOnlyA._determine_relevant_agents emailEvent).map Worker.name ∧
        res.length = (mcpOnlyA._determine_relevant_agents emailEvent).length) := by
  have hnd : ((mcpOnlyA._determine_relevant_agents emailEvent).map Worker.name).Nodup := by
    rw [show mcpOnlyA._determine_relevant_agents emailEvent = [succeedingWorker] from rfl]
    decide
  exact ⟨hnd, rfl, (claim_C2 mcpOnlyA emailEvent hnd).2.2⟩

/-- C2 counterexample: both routed identities of `email_received` are
registered (with same-class instances), yet the aggregated mapping has
a single entry — not one entry per routed-and-registered identity. -/
theorem claim_C2_cex :
    ((dictGetD mcpSameClassOk._routing_rules ("email_received") []).filterMap
        (fun t => dictGet mcpSameClassOk.agents t)).length = 2 ∧
    (mcpSameClassOk.process_event emailEvent).2
      = Outcome.success ("email_received") 2 [("Mock", PyVal.int 2)] ∧
    ([(("Mock" : String), PyVal.int 2)].length ≠ 2) := by
  exact ⟨rfl, rfl, by decide⟩

/-! ## JSON codec round-trip, toward claims C8 and C10 -/

theorem digCh_val (d : Nat) (h : d < 10) :
    (digCh d).toNat - 48 = d ∧ isDigitCh (digCh d) = true := by
  interval_cases d <;> exact ⟨by decide, by decide⟩

theorem natChars_all_digits (n : Nat) : ∀ c ∈ natChars n, isDigitCh c = true := by
  unfold natChars
  split
  · intro c hc
    rw [List.mem_singleton] at hc
    subst hc
    decide
  · intro c hc
    rw [List.mem_reverse, List.mem_map] at hc
    obtain ⟨d, hd, rfl⟩ := hc
    exact (digCh_val d (Nat.digits_lt_base (by omega) hd)).2

theorem natChars_ne_nil (n : Nat) : natChars n ≠ [] := by
  unfold natChars
  split
  · exact List.cons_ne_nil _ _
  · rename_i h
    simp [Nat.digits_ne_nil_iff_ne_zero.mpr h]

theorem natChars_head_digit (n : Nat) :
    ∃ c t, natChars n = c :: t ∧ isDigitCh c = true := by
  obtain ⟨c, t, h⟩ := List.exists_cons_of_ne_nil (natChars_ne_nil n)
  exact ⟨c, t, h, natChars_all_digits n c (h ▸ List.mem_cons_self _ _)⟩

theorem foldr_ofDigits (L : List Nat) (h : ∀ d ∈ L, d < 10) :
    L.foldr (fun d a => a * 10 + ((digCh d).toNat - 48)) 0 = Nat.ofDigits 10 L := by
  induction L with
  | nil => rfl
  | cons d L ih =>
      rw [List.foldr_cons, ih (fun x hx => h x (List.mem_cons_of_mem d hx)),
        Nat.ofDigits_cons, (digCh_val d (h d (List.mem_cons_self d L))).1]
      omega

theorem digitsVal_natChars (n : Nat) : digitsVal (natChars n) = n := by
  unfold natChars
  split
  · rename_i h
    subst h
    decide
  · unfold digitsVal
    rw [List.foldl_reverse, List.foldr_map,
      foldr_ofDigits _ (fun d hd => Nat.digits_lt_base (by omega) hd),
      Nat.ofDigits_digits]

theorem digit_ne (c x : Char) (h : isDigitCh c = true) (hx : isDigitCh x = false) :
    c ≠ x := by
  intro he
  subst he
  rw [h] at hx
  cases hx

theorem digit_not_ws (c : Char) (h : isDigitCh c = true) : isWsCh c = false := by
  rw [isWsCh, decide_eq_false_iff_not]
  rintro (rfl | rfl | rfl | rfl) <;> exact absurd h (by decide)

theorem digitSpan_stop (cs : List Char) (h : noDigitHead cs = true) :
    digitSpan cs = ([], cs) := by
  cases cs with
  | nil => rfl
  | cons c t =>
      simp only [noDigitHead, Bool.not_eq_eq_eq_not, Bool.not_true] at h
      simp [digitSpan, h]

theorem digitSpan_run (ds : List Char) (rest : List Char)
    (hds : ∀ c ∈ ds, isDigitCh c = true) (hrest : noDigitHead rest = true) :
    digitSpan (ds ++ rest) = (ds, rest) := by
  induction ds with
  | nil => simpa using digitSpan_stop rest hrest
  | cons c t ih =>
      have hc : isDigitCh c = true := hds c (List.mem_cons_self c t)
      have ht := ih (fun x hx => hds x (List.mem_cons_of_mem c hx))
      simp [digitSpan, hc, ht]

theorem numScan_intChars (i : Int) (rest : List Char) (hrest : noDigitHead rest = true) :
    numScan (intChars i ++ rest) = some (i, rest) := by
  obtain ⟨c0, t0, h0, hd0⟩ := natChars_head_digit i.natAbs
  have hspan : digitSpan (natChars i.natAbs ++ rest) = (natChars i.natAbs, rest) :=
    digitSpan_run _ _ (natChars_all_digits i.natAbs) hrest
  by_cases hi : i < 0
  · have harg : intChars i ++ rest = '-' :: (natChars i.natAbs ++ rest) := by
      simp [intChars, hi]
    rw [harg]
    simp only [numScan, if_pos rfl, hspan]
    rw [h0]
    have hv : digitsVal (c0 :: t0) = i.natAbs := by
      rw [← h0, digitsVal_natChars]
    simp only [hv]
    have : -((i.natAbs : Nat) : Int) = i := by omega
    rw [this]
    simp
  · have harg : intChars i ++ rest = c0 :: (t0 ++ rest) := by
      simp [intChars, hi, h0]
    rw [harg]
    have hnm : ¬c0 = '-' := digit_ne c0 '-' hd0 (by decide)
    have hspan2 : digitSpan (c0 :: (t0 ++ rest)) = (c0 :: t0, rest) := by
      have := hspan
      rw [h0] at this
      simpa using this
    simp only [numScan, if_neg hnm, hspan2]
    have hv : digitsVal (c0 :: t0) = i.natAbs := by
      rw [← h0, digitsVal_natChars]
    simp only [hv]
    have : ((i.natAbs : Nat) : Int) = i := by omega
    rw [this]

theorem hexValCh_hexCh (d : Nat) (h : d < 16) : hexValCh (hexCh d) = some d := by
  interval_cases d <;> decide

theorem strScan_esc (c : Char) (acc rest : List Char) :
    strScan acc (jEsc c ++ rest) = strScan (c :: acc) rest := by
  unfold jEsc
  split_ifs with h1 h2 h3 h4 h5 h6 h7 h8
  · subst h1; rfl
  · subst h2; rfl
  · subst h3; rfl
  · subst h4; rfl
  · subst h5; rfl
  · have hc : c = Char.ofNat 8 := by
      rw [← Char.ofNat_toNat c, h6]
    rw [hc]
    rfl
  · have hc : c = Char.ofNat 12 := by
      rw [← Char.ofNat_toNat c, h7]
    rw [hc]
    rfl
  · have hhi : c.toNat / 16 < 16 := by omega
    have hlo : c.toNat % 16 < 16 := by omega
    simp only [List.cons_append, List.nil_append, strScan, if_neg (by decide : ¬ '\\' = '"'),
      if_pos rfl, hexValCh_hexCh _ hhi, hexValCh_hexCh _ hlo,
      show hexValCh '0' = some 0 from by decide]
    have harith : ((0 * 16 + 0) * 16 + c.toNat / 16) * 16 + c.toNat % 16 = c.toNat := by
      omega
    rw [harith, Char.ofNat_toNat]
    simp
  · show strScan acc (c :: rest) = strScan (c :: acc) rest
    conv_lhs => rw [strScan.eq_def]
    dsimp only
    rw [if_neg h2, if_neg h1]

theorem strScan_flatMap (cs : List Char) :
    ∀ acc rest : List Char,
      strScan acc (cs.flatMap jEsc ++ '"' :: rest)
        = some (String.mk (acc.reverse ++ cs), rest) := by
  induction cs with
  | nil =>
      intro acc rest
      show strScan acc ('"' :: rest) = _
      conv_lhs => rw [strScan.eq_def]
      simp
  | cons c cs ih =>
      intro acc rest
      rw [List.flatMap_cons, List.append_assoc, strScan_esc, ih]
      simp

theorem strScan_strChars (s : String) (rest : List Char) :
    strScan [] (s.data.flatMap jEsc ++ '"' :: rest) = some (s, rest) := by
  rw [strScan_flatMap]
  rfl

theorem wsSkip_cons_not (c : Char) (rest : List Char) (h : isWsCh c = false) :
    wsSkip (c :: rest) = c :: rest := by
  simp [wsSkip, h]

theorem jRender_head (v : PyVal) :
    ∃ c t, jRender v = c :: t ∧ isWsCh c = false
      ∧ c ≠ ']' ∧ c ≠ '\x7d' ∧ c ≠ ',' ∧ c ≠ ':' := by
  cases v with
  | null => exact ⟨'n', _, rfl, by decide⟩
  | bool b =>
      cases b with
      | true => exact ⟨'t', _, rfl, by decide⟩
      | false => exact ⟨'f', _, rfl, by decide⟩
  | str s => exact ⟨'"', _, rfl, by decide⟩
  | list vs => exact ⟨'[', _, rfl, by decide⟩
  | dict fs => exact ⟨'\x7b', _, rfl, by decide⟩
  | int i =>
      by_cases hi : i < 0
      · exact ⟨'-', natChars i.natAbs, by simp [jRender, intChars, hi], by decide⟩
      · obtain ⟨c0, t0, h0, hd0⟩ := natChars_head_digit i.natAbs
        refine ⟨c0, t0, ?_, digit_not_ws c0 hd0, digit_ne c0 ']' hd0 (by decide),
          digit_ne c0 '\x7d' hd0 (by decide), digit_ne c0 ',' hd0 (by decide),
          digit_ne c0 ':' hd0 (by decide)⟩
        simp [jRender, intChars, hi, h0]

theorem wsSkip_jRender (v : PyVal) (x : List Char) :
    wsSkip (jRender v ++ x) = jRender v ++ x := by
  obtain ⟨c, t, hren, hws, -, -, -, -⟩ := jRender_head v
  rw [hren, List.cons_append, wsSkip_cons_not c _ hws]

theorem jCost_pos (v : PyVal) : 1 ≤ jCost v := by
  cases v <;> simp [jCost]

theorem intChars_head (i : Int) :
    ∃ c t, intChars i = c :: t ∧ (c = '-' || isDigitCh c) = true ∧ isWsCh c = false
      ∧ c ≠ 'n' ∧ c ≠ 't' ∧ c ≠ 'f' ∧ c ≠ '"' ∧ c ≠ '[' ∧ c ≠ '\x7b' := by
  by_cases hi : i < 0
  · exact ⟨'-', natChars i.natAbs, by simp [intChars, hi], by decide⟩
  · obtain ⟨c0, t0, h0, hd0⟩ := natChars_head_digit i.natAbs
    refine ⟨c0, t0, ?_, by simp [hd0], digit_not_ws c0 hd0,
      digit_ne c0 'n' hd0 (by decide), digit_ne c0 't' hd0 (by decide),
      digit_ne c0 'f' hd0 (by decide), digit_ne c0 '"' hd0 (by decide),
      digit_ne c0 '[' hd0 (by decide), digit_ne c0 '\x7b' hd0 (by decide)⟩
    simp [intChars, hi, h0]

theorem jRenderItems_cons (v : PyVal) (vs : List PyVal) :
    jRenderItems (v :: vs)
      = jRender v ++ (match vs with | [] => [] | _ :: _ => ',' :: jRenderItems vs) := by
  cases vs
  · simp [jRenderItems]
  · rfl

theorem jRenderFields_cons (k : String) (v : PyVal) (fs : List (String × PyVal)) :
    jRenderFields ((k, v) :: fs)
      = strChars k
          ++ ':' :: (jRender v
            ++ (match fs with | [] => [] | _ :: _ => ',' :: jRenderFields fs)) := by
  cases fs
  · simp [jRenderFields]
  · rfl

theorem jParse_num_branch (fuel : Nat) (ch : Char) (t : List Char)
    (wq : isWsCh ch = false)
    (q1 : ch ≠ 'n') (q2 : ch ≠ 't') (q3 : ch ≠ 'f') (q4 : ch ≠ '"')
    (q5 : ch ≠ '[') (q6 : ch ≠ '\x7b')
    (qg : (ch = '-' || isDigitCh ch) = true) :
    jParse (fuel + 1) (ch :: t)
      = (match numScan (ch :: t) with
         | some (i, r2) => some (.int i, r2)
         | none => none) := by
  simp only [jParse]
  rw [wsSkip_cons_not ch t wq]
  simp [q1, q2, q3, q4, q5, q6, qg]

theorem jParse_list_branch (fuel : Nat) (X : List Char)
    (hX : wsSkip X = X) (hhead : ∀ r2, X ≠ ']' :: r2) :
    jParse (fuel + 1) ('[' :: X)
      = (match jParseItems fuel X with
         | some (vs, r3) => some (.list vs, r3)
         | none => none) := by
  simp only [jParse]
  rw [wsSkip_cons_not _ _ (by decide)]
  cases X with
  | nil => rfl
  | cons c t =>
      have hne : ¬c = ']' := fun he => hhead t (by rw [he])
      simp [hX, hne]

theorem jParse_dict_branch (fuel : Nat) (X : List Char)
    (hX : wsSkip X = X) (hhead : ∀ r2, X ≠ '\x7d' :: r2) :
    jParse (fuel + 1) ('\x7b' :: X)
      = (match jParseFields fuel X with
         | some (fs, r3) => some (.dict fs, r3)
         | none => none) := by
  simp only [jParse]
  rw [wsSkip_cons_not _ _ (by decide)]
  cases X with
  | nil => rfl
  | cons c t =>
      have hne : ¬c = '\x7d' := fun he => hhead t (by rw [he])
      simp [hX, hne]

theorem jParse_str_branch (fuel : Nat) (X : List Char) :
    jParse (fuel + 1) ('"' :: X)
      = (match strScan [] X with
         | some (s, r2) => some (.str s, r2)
         | none => none) := by
  simp only [jParse]
  rw [wsSkip_cons_not _ _ (by decide)]
  rfl

theorem jParseItems_step (fuel : Nat) (X : List Char) :
    jParseItems (fuel + 1) X
      = (match jParse fuel X with
         | none => none
         | some (v, r) =>
            match wsSkip r with
            | ',' :: r2 =>
                match jParseItems fuel r2 with
                | some (vs, r3) => some (v :: vs, r3)
                | none => none
            | ']' :: r2 => some ([v], r2)
            | _ => none) := rfl

theorem jParseFields_quote (fuel : Nat) (Y : List Char) :
    jParseFields (fuel + 1) ('"' :: Y)
      = (match strScan [] Y with
         | none => none
         | some (k, r1) =>
            match wsSkip r1 with
            | ':' :: r2 =>
                match jParse fuel r2 with
                | none => none
                | some (v, r3) =>
                    match wsSkip r3 with
                    | ',' :: r4 =>
                        match jParseFields fuel r4 with
                        | some (fs, r5) => some ((k, v) :: fs, r5)
                        | none => none
                    | '\x7d' :: r4 => some ([(k, v)], r4)
                    | _ => none
            | _ => none) := by
  simp only [jParseFields]
  rw [wsSkip_cons_not _ _ (by decide)]
  rfl

theorem jParseFields_step (fuel : Nat) (X : List Char) :
    jParseFields (fuel + 1) X
      = (match wsSkip X with
         | '"' :: r =>
            match strScan [] r with
            | none => none
            | some (k, r1) =>
                match wsSkip r1 with
                | ':' :: r2 =>
                    match jParse fuel r2 with
                    | none => none
                    | some (v, r3) =>
                        match wsSkip r3 with
                        | ',' :: r4 =>
                            match jParseFields fuel r4 with
                            | some (fs, r5) => some ((k, v) :: fs, r5)
                            | none => none
                        | '\x7d' :: r4 => some ([(k, v)], r4)
                        | _ => none
                | _ => none
         | _ => none) := rfl

mutual

theorem jParse_render : ∀ (fuel : Nat) (v : PyVal) (rest : List Char),
    jCost v ≤ fuel → noDigitHead rest = true →
    jParse fuel (jRender v ++ rest) = some (v, rest)
  | 0, v, _, hc, _ => by
      exfalso
      have := jCost_pos v
      omega
  | fuel + 1, .null, rest, _, _ => rfl
  | fuel + 1, .bool true, rest, _, _ => rfl
  | fuel + 1, .bool false, rest, _, _ => rfl
  | fuel + 1, .list [], rest, _, _ => rfl
  | fuel + 1, .dict [], rest, _, _ => rfl
  | fuel + 1, .int i, rest, _, hr => by
      obtain ⟨c0, t0, h0, hg, hws, hn, ht2, hf, hq, hbk, hbr⟩ := intChars_head i
      have harg : jRender (.int i) ++ rest = c0 :: (t0 ++ rest) := by
        show intChars i ++ rest = _
        rw [h0]
        rfl
      rw [harg, jParse_num_branch fuel c0 (t0 ++ rest) hws hn ht2 hf hq hbk hbr hg, ← harg]
      rw [show jRender (.int i) = intChars i from rfl, numScan_intChars i rest hr]
  | fuel + 1, .str s, rest, _, _ => by
      rw [show jRender (.str s) ++ rest = '"' :: (s.data.flatMap jEsc ++ '"' :: rest) from by
          simp [jRender, strChars],
        jParse_str_branch, strScan_strChars]
  | fuel + 1, .list (v :: vs), rest, hc, _ => by
      obtain ⟨c1, t1, hren, hws1, hbr1, -, -, -⟩ := jRender_head v
      have hws2 : wsSkip (jRenderItems (v :: vs) ++ ']' :: rest)
          = jRenderItems (v :: vs) ++ ']' :: rest := by
        rw [jRenderItems_cons, hren]
        simp only [List.cons_append, List.append_assoc]
        exact wsSkip_cons_not _ _ hws1
      have hhead2 : ∀ r2, jRenderItems (v :: vs) ++ ']' :: rest ≠ ']' :: r2 := by
        intro r2 hcontra
        rw [jRenderItems_cons, hren] at hcontra
        simp only [List.cons_append, List.append_assoc] at hcontra
        exact hbr1 (by injection hcontra)
      have harg : jRender (.list (v :: vs)) ++ rest
          = '[' :: (jRenderItems (v :: vs) ++ ']' :: rest) := by
        show ('[' :: (jRenderItems (v :: vs) ++ [']'])) ++ rest = _
        simp
      have hcost : jCostItems (v :: vs) ≤ fuel := by
        have h1 : jCost (.list (v :: vs)) = 1 + jCostItems (v :: vs) := rfl
        omega
      rw [harg, jParse_list_branch fuel _ hws2 hhead2,
        jParseItems_render fuel v vs rest hcost]
  | fuel + 1, .dict ((k, v) :: fs), rest, hc, _ => by
      have hws2 : wsSkip (jRenderFields ((k, v) :: fs) ++ '\x7d' :: rest)
          = jRenderFields ((k, v) :: fs) ++ '\x7d' :: rest := by
        rw [jRenderFields_cons]
        simp only [strChars, List.cons_append, List.append_assoc]
        exact wsSkip_cons_not _ _ (by decide)
      have hhead2 : ∀ r2, jRenderFields ((k, v) :: fs) ++ '\x7d' :: rest ≠ '\x7d' :: r2 := by
        intro r2 hcontra
        rw [jRenderFields_cons] at hcontra
        simp only [strChars, List.cons_append, List.append_assoc] at hcontra
        exact absurd (by injection hcontra : '"' = '\x7d') (by decide)
      have harg : jRender (.dict ((k, v) :: fs)) ++ rest
          = '\x7b' :: (jRenderFields ((k, v) :: fs) ++ '\x7d' :: rest) := by
        show ('\x7b' :: (jRenderFields ((k, v) :: fs) ++ ['\x7d'])) ++ rest = _
        simp
      have hcost : jCostFields ((k, v) :: fs) ≤ fuel := by
        have h1 : jCost (.dict ((k, v) :: fs)) = 1 + jCostFields ((k, v) :: fs) := rfl
        omega
      rw [harg, jParse_dict_branch fuel _ hws2 hhead2,
        jParseFields_render fuel k v fs rest hcost]

theorem jParseItems_render : ∀ (fuel : Nat) (v : PyVal) (vs : List PyVal) (rest : List Char),
    jCostItems (v :: vs) ≤ fuel →
    jParseItems fuel (jRenderItems (v :: vs) ++ ']' :: rest) = some (v :: vs, rest)
  | 0, v, vs, _, hc => by
      exfalso
      have h1 : jCostItems (v :: vs) = 1 + max (jCost v) (jCostItems vs) := rfl
      omega
  | fuel + 1, v, vs, rest, hc => by
      have hcv : jCost v ≤ fuel := by
        have h1 : jCostItems (v :: vs) = 1 + max (jCost v) (jCostItems vs) := rfl
        omega
      cases vs with
      | nil =>
          have harg : jRenderItems [v] ++ ']' :: rest = jRender v ++ ']' :: rest := by
            simp [jRenderItems]
          rw [harg, jParseItems_step, jParse_render fuel v (']' :: rest) hcv rfl]
          rfl
      | cons v2 vs2 =>
          have hcv2 : jCostItems (v2 :: vs2) ≤ fuel := by
            have h1 : jCostItems (v :: v2 :: vs2)
                = 1 + max (jCost v) (jCostItems (v2 :: vs2)) := rfl
            omega
          have harg : jRenderItems (v :: v2 :: vs2) ++ ']' :: rest
              = jRender v ++ ',' :: (jRenderItems (v2 :: vs2) ++ ']' :: rest) := by
            rw [jRenderItems_cons]
            simp
          rw [harg, jParseItems_step,
            jParse_render fuel v (',' :: (jRenderItems (v2 :: vs2) ++ ']' :: rest)) hcv rfl]
          show (match jParseItems fuel (jRenderItems (v2 :: vs2) ++ ']' :: rest) with
                | some (vs3, r3) => some (v :: vs3, r3)
                | none => none)
              = some (v :: v2 :: vs2, rest)
          rw [jParseItems_render fuel v2 vs2 rest hcv2]

theorem jParseFields_render : ∀ (fuel : Nat) (k : String) (v : PyVal)
    (fs : List (String × PyVal)) (rest : List Char),
    jCostFields ((k, v) :: fs) ≤ fuel →
    jParseFields fuel (jRenderFields ((k, v) :: fs) ++ '\x7d' :: rest)
      = some ((k, v) :: fs, rest)
  | 0, k, v, fs, _, hc => by
      exfalso
      have h1 : jCostFields ((k, v) :: fs) = 1 + max (jCost v) (jCostFields fs) := rfl
      omega
  | fuel + 1, k, v, fs, rest, hc => by
      have hcv : jCost v ≤ fuel := by
        have h1 : jCostFields ((k, v) :: fs) = 1 + max (jCost v) (jCostFields fs) := rfl
        omega
      cases fs with
      | nil =>
          have harg : jRenderFields [(k, v)] ++ '\x7d' :: rest
              = '"' :: (k.data.flatMap jEsc ++ '"' :: (':' :: (jRender v ++ '\x7d' :: rest))) := by
            simp [jRenderFields, strChars]
          rw [harg, jParseFields_quote, strScan_strChars]
          show (match jParse fuel (jRender v ++ '\x7d' :: rest) with
                | none => none
                | some (v3, r3) =>
                    match wsSkip r3 with
                    | ',' :: r4 =>
                        match jParseFields fuel r4 with
                        | some (fs5, r5) => some ((k, v3) :: fs5, r5)
                        | none => none
                    | '\x7d' :: r4 => some ([(k, v3)], r4)
                    | _ => none)
              = some ([(k, v)], rest)
          rw [jParse_render fuel v ('\x7d' :: rest) hcv rfl]
          rfl
      | cons f2 fs2 =>
          obtain ⟨k2, v2⟩ := f2
          have hcv2 : jCostFields ((k2, v2) :: fs2) ≤ fuel := by
            have h1 : jCostFields ((k, v) :: (k2, v2) :: fs2)
                = 1 + max (jCost v) (jCostFields ((k2, v2) :: fs2)) := rfl
            omega
          have harg : jRenderFields ((k, v) :: (k2, v2) :: fs2) ++ '\x7d' :: rest
              = '"' :: (k.data.flatMap jEsc
                  ++ '"' :: (':' :: (jRender v
                    ++ ',' :: (jRenderFields ((k2, v2) :: fs2) ++ '\x7d' :: rest)))) := by
            rw [jRenderFields_cons]
            simp [strChars]
          rw [harg, jParseFields_quote, strScan_strChars]
          show (match jParse fuel (jRender v
                  ++ ',' :: (jRenderFields ((k2, v2) :: fs2) ++ '\x7d' :: rest)) with
                | none => none
                | some (v3, r3) =>
                    match wsSkip r3 with
                    | ',' :: r4 =>
                        match jParseFields fuel r4 with
                        | some (fs5, r5) => some ((k, v3) :: fs5, r5)
                        | none => none
                    | '\x7d' :: r4 => some ([(k, v3)], r4)
                    | _ => none)
              = some ((k, v) :: (k2, v2) :: fs2, rest)
          rw [jParse_render fuel v
              (',' :: (jRenderFields ((k2, v2) :: fs2) ++ '\x7d' :: rest)) hcv rfl]
          show (match jParseFields fuel (jRenderFields ((k2, v2) :: fs2) ++ '\x7d' :: rest) with
                | some (fs5, r5) => some ((k, v) :: fs5, r5)
                | none => none)
              = some ((k, v) :: (k2, v2) :: fs2, rest)
          rw [jParseFields_render fuel k2 v2 fs2 rest hcv2]

end

mutual

theorem jCost_le_render : ∀ v : PyVal, jCost v ≤ (jRender v).length
  | .null => by simp [jCost, jRender]
  | .bool true => by simp [jCost, jRender]
  | .bool false => by simp [jCost, jRender]
  | .int i => by
      obtain ⟨c0, t0, h0, -, -, -, -, -, -, -, -⟩ := intChars_head i
      show jCost (.int i) ≤ (intChars i).length
      rw [h0]
      simp [jCost]
  | .str s => by
      show jCost (.str s) ≤ (strChars s).length
      simp [jCost, strChars]
  | .list vs => by
      have h := jCostItems_le_render vs
      show 1 + jCostItems vs ≤ ('[' :: (jRenderItems vs ++ [']'])).length
      cases vs with
      | nil => simp [jCostItems]
      | cons v vs2 =>
          simp only [List.length_cons, List.length_append]
          have h2 : 1 ≤ (jRender v).length := by
            obtain ⟨c1, t1, hren, -, -, -, -, -⟩ := jRender_head v
            rw [hren]
            simp
          have h3 : (jRender v).length ≤ (jRenderItems (v :: vs2)).length := by
            rw [jRenderItems_cons]
            simp
          omega
  | .dict fs => by
      have h := jCostFields_le_render fs
      show 1 + jCostFields fs ≤ ('\x7b' :: (jRenderFields fs ++ ['\x7d'])).length
      simp only [List.length_cons, List.length_append]
      omega

theorem jCostItems_le_render : ∀ vs : List PyVal,
    jCostItems vs ≤ (jRenderItems vs).length + 1
  | [] => by simp [jCostItems]
  | [v] => by
      have h := jCost_le_render v
      show 1 + max (jCost v) (jCostItems []) ≤ (jRenderItems [v]).length + 1
      simp only [jCostItems, jRenderItems]
      omega
  | v :: v2 :: vs => by
      have h1 := jCost_le_render v
      have h2 := jCostItems_le_render (v2 :: vs)
      show 1 + max (jCost v) (jCostItems (v2 :: vs))
          ≤ (jRender v ++ ',' :: jRenderItems (v2 :: vs)).length + 1
      simp only [List.length_append, List.length_cons]
      omega

theorem jCostFields_le_render : ∀ fs : List (String × PyVal),
    jCostFields fs ≤ (jRenderFields fs).length + 1
  | [] => by simp [jCostFields]
  | [(k, v)] => by
      have h := jCost_le_render v
      show 1 + max (jCost v) (jCostFields []) ≤ (strChars k ++ ':' :: jRender v).length + 1
      simp only [jCostFields, List.length_append, List.length_cons]
      omega
  | (k, v) :: f2 :: fs => by
      have h1 := jCost_le_render v
      have h2 := jCostFields_le_render (f2 :: fs)
      show 1 + max (jCost v) (jCostFields (f2 :: fs))
          ≤ (strChars k ++ ':' :: (jRender v ++ ',' :: jRenderFields (f2 :: fs))).length + 1
      simp only [List.length_append, List.length_cons]
      omega

end

/-- The codec round-trip for the store: reading back an exported dict
recovers exactly the exported entries. -/
theorem jloads_jdumps (d : List (String × PyVal)) : jloads (jdumps d) = some (.dict d) := by
  have hfuel : jCost (.dict d) ≤ (jRender (.dict d)).length + 1 := by
    have := jCost_le_render (.dict d)
    omega
  have h := jParse_render ((jRender (PyVal.dict d)).length + 1) (.dict d) [] hfuel rfl
  rw [List.append_nil] at h
  show (match jParse ((jRender (PyVal.dict d)).length + 1) (jRender (.dict d)) with
        | some (v, r) => if (wsSkip r).isEmpty then some v else none
        | none => none) = some (.dict d)
  rw [h]
  rfl

theorem dictGet_eq_none_forall [DecidableEq κ] (d : List (κ × α)) (k : κ)
    (h : dictGet d k = none) : ∀ p ∈ d, p.1 ≠ k := by
  induction d with
  | nil => intro p hp; cases hp
  | cons q rest ih =>
      obtain ⟨k0, v0⟩ := q
      by_cases hk : k0 = k
      · rw [dictGet, if_pos hk] at h
        cases h
      · rw [dictGet, if_neg hk] at h
        intro p hp
        rcases List.mem_cons.mp hp with rfl | hp2
        · exact hk
        · exact ih h p hp2

theorem dictGet_mem [DecidableEq κ] (d : List (κ × α)) (k : κ) (v : α)
    (h : dictGet d k = some v) : (k, v) ∈ d := by
  induction d with
  | nil => cases h
  | cons q rest ih =>
      obtain ⟨k0, v0⟩ := q
      by_cases hk : k0 = k
      · rw [dictGet, if_pos hk] at h
        injection h with h2
        subst hk
        subst h2
        exact List.mem_cons_self _ _
      · rw [dictGet, if_neg hk] at h
        exact List.mem_cons_of_mem _ (ih h)

/-! ## Claim C8: export / import round trip -/

/-- C8: exporting any store and importing the produced text into any
other store succeeds, and the result is the `update`-merge of the
imported pairs over the target: every exported key reads back its
original value (imported keys win), every other key keeps the target's
value — so importing into a fresh store reproduces the exact key/value
set, and importing never replaces the target wholesale. -/
theorem claim_C8 (s t : SharedContextManager)
    (hnd : (s._context.map Prod.fst).Nodup) :
    ∃ r, t.import_from_json (s.export_to_json) = Except.ok r ∧
      ∀ k, dictGet r._context k = (dictGet s._context k).or (dictGet t._context k) := by
  unfold SharedContextManager.import_from_json SharedContextManager.export_to_json
  rw [jloads_jdumps]
  refine ⟨_, rfl, fun k => ?_⟩
  have hctx : (SharedContextManager.update t s._context)._context
      = dictMerge t._context s._context := rfl
  rw [hctx]
  unfold dictMerge
  cases hs : dictGet s._context k with
  | none =>
      rw [dictGet_foldl_insert_not_mem s._context t._context k
        (fun p hp => dictGet_eq_none_forall s._context k hs p hp)]
      rfl
  | some v =>
      rw [dictGet_foldl_insert_mem s._context t._context k v hnd (dictGet_mem _ _ _ hs)]
      rfl

/-- C8 witness: a concrete two-entry store exported and imported into a
fresh store reads back both values. -/
theorem claim_C8_witness :
    (((⟨[("alpha", PyVal.int 1), ("beta", PyVal.str ("x"))], []⟩ :
        SharedContextManager))._context.map Prod.fst).Nodup ∧
    ∃ r, SharedContextManager.init.import_from_json
        ((⟨[("alpha", PyVal.int 1), ("beta", PyVal.str ("x"))], []⟩ :
          SharedContextManager).export_to_json) = Except.ok r ∧
      ∀ k, dictGet r._context k
        = (dictGet (⟨[("alpha", PyVal.int 1), ("beta", PyVal.str ("x"))], []⟩ :
            SharedContextManager)._context k).or
          (dictGet SharedContextManager.init._context k) :=
  ⟨by decide, claim_C8 ⟨[("alpha", PyVal.int 1), ("beta", PyVal.str ("x"))], []⟩
    SharedContextManager.init (by decide)⟩

/-! ## Claim C10: invalid JSON leaves the store untouched -/

/-- C10: on any input `json.loads` rejects, `import_from_json` raises
nothing (the decode error is caught and only printed) and the store is
exactly as before — same key/value map, same change history, no history
entry appended. -/
theorem claim_C10 (c : SharedContextManager) (s : String) (h : jloads s = none) :
    c.import_from_json s = Except.ok c ∧
    ∀ r, c.import_from_json s = Except.ok r →
      r._context = c._context ∧ r._history = c._history := by
  have h1 : c.import_from_json s = Except.ok c := by
    unfold SharedContextManager.import_from_json
    rw [h]
  refine ⟨h1, fun r hr => ?_⟩
  rw [h1] at hr
  injection hr with h2
  subst h2
  exact ⟨rfl, rfl⟩

/-- C10 witness: importing the non-JSON text consisting of a lone
opening brace into a store with an entry and a history line returns the
store unchanged. -/
theorem claim_C10_witness :
    jloads ("\x7b") = none ∧
    (⟨[("alpha", PyVal.int 1)], [PyVal.str ("logged")]⟩ :
        SharedContextManager).import_from_json ("\x7b")
      = Except.ok ⟨[("alpha", PyVal.int 1)], [PyVal.str ("logged")]⟩ :=
  ⟨rfl, (claim_C10 ⟨[("alpha", PyVal.int 1)], [PyVal.str ("logged")]⟩ ("\x7b") rfl).1⟩
